import Mathlib

/-!
Verification of the code-generation core of the ts-llvm repository.

The embedding translates `src/codegen/generator.ts` (module driver, node
dispatch, load-if-needed rule) and the utility module (`replaceExtension`,
`createLLVMFunction`, `getMemberIndex`, `isValueType`) into executable Lean
definitions.  Parts of the repository that the claims depend on but that are
not present under `src/` (the statement/declaration/expression emitters and
the diagnostics channel) are modelled from the specification; each such
definition carries a doc comment starting with `Modelled from the spec:`.
-/

set_option maxHeartbeats 1000000

/-- Shallow embedding of the LLVM types the generator manipulates
(`llvm.Type`): the uniform double used for numbers, the i32 status type of
the entry function, i1 booleans, pointers and named aggregates. -/
inductive LType where
  | double
  | int32
  | int1
  | pointer (elem : LType)
  | structT (tag : String)
deriving DecidableEq

/-- `llvm.Type#isDoubleTy`. -/
def LType.isDoubleTy : LType → Bool
  | .double => true
  | _ => false

/-- `llvm.Type#isPointerTy`. -/
def LType.isPointerTy : LType → Bool
  | .pointer _ => true
  | _ => false

/-- `llvm.PointerType#elementType`; the source only reads it after an
`isPointerTy` guard, so the value on non-pointers is irrelevant junk. -/
def LType.elementType : LType → LType
  | .pointer t => t
  | t => t

/-- Embeds `isValueType` from the utility module: a type is value-typed
exactly when it is the double type (`return type.isDoubleTy();`). -/
def isValueType (type : LType) : Bool :=
  type.isDoubleTy

/-- Instructions as far as the claims observe them: a generic non-terminating
statement instruction tagged with its source text, a return of an integer
constant, and a load from an address of the given type. -/
inductive Instr where
  | stmt (text : String)
  | ret (value : Int)
  | load (fromType : LType)
deriving DecidableEq

/-- A return instruction is the only terminator in the embedded fragment. -/
def isTerminator : Instr → Bool
  | .ret _ => true
  | _ => false

/-- `llvm.BasicBlock`: a labelled instruction list. -/
structure BasicBlock where
  name : String
  instrs : List Instr
deriving DecidableEq

/-- `llvm.Function`: name, return type, parameter types and body blocks.
Linkage is always external in the source (`createLLVMFunction`) and is
omitted. -/
structure LLVMFunction where
  name : String
  retType : LType
  params : List LType
  blocks : List BasicBlock
deriving DecidableEq

def defaultBlock : BasicBlock := ⟨"", []⟩

def defaultFunc : LLVMFunction := ⟨"", LType.int32, [], []⟩

/-- `llvm.Module`: the single output unit owning every emitted function. -/
structure LLVMModule where
  name : String
  functions : List LLVMFunction
deriving DecidableEq

/-- Embeds `createLLVMFunction` from the utility module: builds a function
of the given signature with external linkage and no blocks yet. -/
def createLLVMFunction (returnType : LType) (parameterTypes : List LType)
    (name : String) : LLVMFunction :=
  ⟨name, returnType, parameterTypes, []⟩

/-- `llvm.Value` as far as `createLoadIfAllocaOrPointerToValueType` inspects
it: its type and whether it is an `AllocaInst`. -/
structure LLVMValue where
  type : LType
  isAlloca : Bool
deriving DecidableEq

/-- `IRBuilder#createLoad`: the loaded value has the pointee type and is not
itself an alloca. -/
def createLoad (v : LLVMValue) : LLVMValue :=
  ⟨v.type.elementType, false⟩

/-- Embeds `LLVMGenerator#createLoadIfAllocaOrPointerToValueType`
(generator.ts lines 147-152).  The builder emission is rendered as the list
of instructions the call creates: `[load]` when a load is emitted, `[]`
when the value is returned unchanged. -/
def createLoadIfAllocaOrPointerToValueType (value : LLVMValue) :
    LLVMValue × List Instr :=
  if value.isAlloca || (value.type.isPointerTy && isValueType value.type.elementType) then
    (createLoad value, [Instr.load value.type])
  else
    (value, [])

/-- The character class `[^\.\/\\]` of the extension-stripping regex in
`replaceExtension`. -/
def extCharOk (c : Char) : Bool :=
  !(c == '.') && !(c == '/') && !(c == '\\')

/-- Helper for the regex `\.[^\.\/\\]+$` applied to a reversed path: after
at least one extension character has been seen, consume further extension
characters until the introducing dot, returning what precedes the dot. -/
def consumeExt : List Char → Option (List Char)
  | [] => none
  | c :: rest =>
    if c == '.' then some rest
    else if extCharOk c then consumeExt rest
    else none

/-- Matches the regex `\.[^\.\/\\]+$` against the end of the path, given the
reversed path: one or more extension characters, then the dot.  Returns the
reversed remainder on a match. -/
def dropExtRev : List Char → Option (List Char)
  | [] => none
  | c :: rest => if extCharOk c then consumeExt rest else none

/-- `filePath.replace(/\.[^\.\/\\]+$/, "")`: strip a final dot-suffix whose
extension part is nonempty and free of dots and path separators; leave the
path unchanged when the regex does not match. -/
def stripExt (p : List Char) : List Char :=
  match dropExtRev p.reverse with
  | some base => base.reverse
  | none => p

/-- Embeds `replaceExtension` from the utility module:
`filePath.replace(/\.[^\.\/\\]+$/, "") + extension`, over character lists. -/
def replaceExtension (filePath : List Char) (extension : List Char) : List Char :=
  stripExt filePath ++ extension

/-- A character that is not a path separator. -/
def notSep (c : Char) : Bool :=
  !(c == '/') && !(c == '\\')

/-- The final path segment: the maximal separator-free suffix of the path
(used to state what `replaceExtension` does to dot-free file names). -/
def finalSegment (p : List Char) : List Char :=
  (p.reverse.takeWhile notSep).reverse

/-- The `ts.SyntaxKind` values distinguished by the generator's dispatch
(generator.ts lines 69-145); every other kind is `Unknown` with the
TypeScript kind name carried as a string. -/
inductive SyntaxKind where
  | Block
  | ExpressionStatement
  | IfStatement
  | ReturnStatement
  | VariableStatement
  | FunctionDeclaration
  | MethodDeclaration
  | Constructor
  | ClassDeclaration
  | ModuleDeclaration
  | EndOfFileToken
  | InterfaceDeclaration
  | BinaryExpression
  | CallExpression
  | PropertyAccessExpression
  | Identifier
  | TrueKeyword
  | FalseKeyword
  | NumericLiteral
  | StringLiteral
  | ObjectLiteralExpression
  | NewExpression
  | Unknown (tag : String)
deriving DecidableEq

/-- `ts.SyntaxKind[kind]`: the TypeScript name of a node kind, used in
diagnostic messages. -/
def kindName : SyntaxKind → String
  | .Block => "Block"
  | .ExpressionStatement => "ExpressionStatement"
  | .IfStatement => "IfStatement"
  | .ReturnStatement => "ReturnStatement"
  | .VariableStatement => "VariableStatement"
  | .FunctionDeclaration => "FunctionDeclaration"
  | .MethodDeclaration => "MethodDeclaration"
  | .Constructor => "Constructor"
  | .ClassDeclaration => "ClassDeclaration"
  | .ModuleDeclaration => "ModuleDeclaration"
  | .EndOfFileToken => "EndOfFileToken"
  | .InterfaceDeclaration => "InterfaceDeclaration"
  | .BinaryExpression => "BinaryExpression"
  | .CallExpression => "CallExpression"
  | .PropertyAccessExpression => "PropertyAccessExpression"
  | .Identifier => "Identifier"
  | .TrueKeyword => "TrueKeyword"
  | .FalseKeyword => "FalseKeyword"
  | .NumericLiteral => "NumericLiteral"
  | .StringLiteral => "StringLiteral"
  | .ObjectLiteralExpression => "ObjectLiteralExpression"
  | .NewExpression => "NewExpression"
  | .Unknown tag => tag

/-- `ts.Node` as far as the generator inspects it: its kind, its source text
(`node.getText()`, used in diagnostics and standing in for the node's
content in the modelled emitters) and its declared name (for declarations). -/
structure Node where
  kind : SyntaxKind
  text : String
  name : String
deriving DecidableEq

/-- A lexical scope; the dispatch only compares scopes against the unique
global scope (`parentScope === this.symbolTable.globalScope`). -/
inductive Scope where
  | global
  | inner (id : Nat)
deriving DecidableEq

/-- The identity test against the global scope. -/
def Scope.isGlobal : Scope → Bool
  | .global => true
  | _ => false

/-- The statement kinds of the first switch in `emitNode` (generator.ts
lines 70-80): exactly these trigger the cursor repositioning. -/
def isStmtKind : SyntaxKind → Bool
  | .Block => true
  | .ExpressionStatement => true
  | .IfStatement => true
  | .ReturnStatement => true
  | .VariableStatement => true
  | _ => false

/-- The node kinds routed to `emitFunctionDeclaration` by the dispatch. -/
def isFuncDeclKind : SyntaxKind → Bool
  | .FunctionDeclaration => true
  | .MethodDeclaration => true
  | .Constructor => true
  | _ => false

/-- Generator state: the module under construction, the builder's insertion
point (function index and block index within it, `none` before the first
`setInsertionPoint`), and the diagnostics accumulated through the non-fatal
channel.  `Modelled from the spec:` the diagnostics module is not under
`src/`; per the spec's diagnostics channel, `warn` is a non-fatal notice
that is accumulated while compilation continues, and `error` is fatal and
aborts the attempt (rendered as `Except.error` where it occurs). -/
structure GenState where
  module : LLVMModule
  insertion : Option (Nat × Nat)
  warnings : List String
deriving DecidableEq

/-- `llvm.Module#getFunction` resolved to an index: first function with the
given name, in insertion order. -/
def findFuncIdx (name : String) : List LLVMFunction → Option Nat
  | [] => none
  | f :: rest =>
    if f.name == name then some 0
    else Option.map (fun i => i + 1) (findFuncIdx name rest)

/-- `builder.setInsertionPoint(R.last(module.getFunction(name).getBasicBlocks())!)`:
reposition the cursor to the last basic block of the named function. -/
def setInsertionPointLastBlock (name : String) (st : GenState) : GenState :=
  match findFuncIdx name st.module.functions with
  | none => st
  | some fi =>
    let bi := (st.module.functions.getD fi defaultFunc).blocks.length - 1
    { st with insertion := some (fi, bi) }

/-- Append an instruction at the builder's insertion point. -/
def appendInstr (i : Instr) (st : GenState) : GenState :=
  match st.insertion with
  | none => st
  | some (fi, bi) =>
    let f := st.module.functions.getD fi defaultFunc
    let b := f.blocks.getD bi defaultBlock
    let f2 := { f with blocks := f.blocks.set bi { b with instrs := b.instrs ++ [i] } }
    { st with module := { st.module with functions := st.module.functions.set fi f2 } }

/-- Modelled from the spec: `emitFunctionDeclaration` lives in
`src/codegen/declaration.ts`, which is not under `src/`.  Per the spec's
Declaration Emitter, it builds the callable artifact with the mapped
signature, opens its entry block, emits the body there (every reachable
path ending in an explicit return) and leaves the insertion point inside
the new function's body.  The body is abstracted as one statement
instruction carrying the node's text followed by a return. -/
def emitFunctionDeclaration (n : Node) (st : GenState) : GenState :=
  let f : LLVMFunction := ⟨n.name, LType.double, [], [⟨"entry", [Instr.stmt n.text, Instr.ret 0]⟩]⟩
  { st with
    module := { st.module with functions := st.module.functions ++ [f] },
    insertion := some (st.module.functions.length, 0) }

/-- Modelled from the spec: `emitClassDeclaration` is in the missing
`declaration.ts`.  Per the spec it derives the class layout and emits the
declared methods/constructor as functions, leaving the insertion point in
the last emitted method body; abstracted as emitting one callable artifact
exactly like a function declaration. -/
def emitClassDeclaration (n : Node) (st : GenState) : GenState :=
  emitFunctionDeclaration n st

/-- Modelled from the spec: `emitModuleDeclaration` is in the missing
`declaration.ts`.  Per the spec a module/namespace opens a scope purely for
qualified-name nesting and produces no runtime artifact; the emission of
its children is outside the embedded fragment, so it is a no-op here. -/
def emitModuleDeclaration (_n : Node) (st : GenState) : GenState :=
  st

/-- Modelled from the spec: the statement emitters live in
`src/codegen/statement.ts`, which is not under `src/`.  Per the spec's
Statement Emitter contract each of them appends its instructions to the
current open block at the insertion point; each is abstracted as appending
one statement instruction carrying the node's source text. -/
def emitStatementAbstract (n : Node) (st : GenState) : GenState :=
  appendInstr (Instr.stmt n.text) st

/-- Modelled from the spec: see `emitStatementAbstract`. -/
def emitBlock (n : Node) (st : GenState) : GenState :=
  emitStatementAbstract n st

/-- Modelled from the spec: see `emitStatementAbstract`. -/
def emitExpressionStatement (n : Node) (st : GenState) : GenState :=
  emitStatementAbstract n st

/-- Modelled from the spec: see `emitStatementAbstract`; the block
structure `emitIfStatement` creates inside function bodies is outside the
embedded fragment. -/
def emitIfStatement (n : Node) (st : GenState) : GenState :=
  emitStatementAbstract n st

/-- Modelled from the spec: see `emitStatementAbstract`; the terminator a
return emits inside a function body is outside the embedded fragment. -/
def emitReturnStatement (n : Node) (st : GenState) : GenState :=
  emitStatementAbstract n st

/-- Modelled from the spec: see `emitStatementAbstract`. -/
def emitVariableStatement (n : Node) (st : GenState) : GenState :=
  emitStatementAbstract n st

/-- Embeds `LLVMGenerator#emitNode` (generator.ts lines 69-119): the first
switch repositions the cursor to the last block of `main` for statement
kinds at global scope; the second switch dispatches to the emitters, skips
`EndOfFileToken` and `InterfaceDeclaration` silently, and warns on any
other unhandled kind. -/
def emitNode (n : Node) (parentScope : Scope) (st : GenState) : GenState :=
  let st1 :=
    if isStmtKind n.kind && parentScope.isGlobal then
      setInsertionPointLastBlock "main" st
    else st
  match n.kind with
  | .FunctionDeclaration => emitFunctionDeclaration n st1
  | .MethodDeclaration => emitFunctionDeclaration n st1
  | .Constructor => emitFunctionDeclaration n st1
  | .ClassDeclaration => emitClassDeclaration n st1
  | .ModuleDeclaration => emitModuleDeclaration n st1
  | .Block => emitBlock n st1
  | .ExpressionStatement => emitExpressionStatement n st1
  | .IfStatement => emitIfStatement n st1
  | .ReturnStatement => emitReturnStatement n st1
  | .VariableStatement => emitVariableStatement n st1
  | .EndOfFileToken => st1
  | .InterfaceDeclaration => st1
  | _ =>
    { st1 with warnings :=
        st1.warnings ++ ["Unhandled ts.Node \x27" ++ kindName n.kind ++ "\x27: " ++ n.text] }

/-- Embeds `LLVMGenerator#emitExpression` (generator.ts lines 121-145).
The individual expression emitters are in the missing `expression.ts`;
`Modelled from the spec:` each handled kind returns a value of the
classification the spec's Expression Emitter assigns it (literals as typed
constants, identifiers as bound addresses, object/new/string as aggregate
addresses).  The default branch is the fatal `error` diagnostic exactly as
in the source. -/
def emitExpression (expression : Node) : Except String LLVMValue :=
  match expression.kind with
  | .BinaryExpression => Except.ok ⟨LType.double, false⟩
  | .CallExpression => Except.ok ⟨LType.double, false⟩
  | .PropertyAccessExpression => Except.ok ⟨LType.pointer LType.double, false⟩
  | .Identifier => Except.ok ⟨LType.pointer LType.double, true⟩
  | .TrueKeyword => Except.ok ⟨LType.int1, false⟩
  | .FalseKeyword => Except.ok ⟨LType.int1, false⟩
  | .NumericLiteral => Except.ok ⟨LType.double, false⟩
  | .StringLiteral => Except.ok ⟨LType.pointer (LType.structT "string"), false⟩
  | .ObjectLiteralExpression => Except.ok ⟨LType.pointer (LType.structT "object"), false⟩
  | .NewExpression => Except.ok ⟨LType.pointer (LType.structT "object"), false⟩
  | k => Except.error ("Unhandled ts.Expression \x27" ++ kindName k ++ "\x27")

/-- Embeds `LLVMGenerator#emitSourceFile`: feed every top-level child of
the source unit into dispatch with the global scope active. -/
def emitSourceFile (sourceFile : List Node) (st : GenState) : GenState :=
  sourceFile.foldl (fun s n => emitNode n Scope.global s) st

/-- The state `emitLLVM` sets up before processing any unit: a module named
"main" holding the synthesized parameterless i32-returning entry function
"main" with one open "entry" block, and a builder with no insertion point. -/
def initialState : GenState :=
  ⟨⟨"main", [{ createLLVMFunction LType.int32 [] "main" with blocks := [⟨"entry", []⟩] }]⟩,
   none, []⟩

/-- The generator state after `emitLLVM` has processed every source unit,
repositioned to the last block of `main` and appended the terminating
`ret i32 0` (generator.ts lines 39-44). -/
def emitFinalState (program : List (List Node)) : GenState :=
  appendInstr (Instr.ret 0) (setInsertionPointLastBlock "main"
    (program.foldl (fun s u => emitSourceFile u s) initialState))

/-- Last instruction of a block body, if any. -/
def lastInstr : List Instr → Option Instr
  | [] => none
  | [i] => some i
  | _ :: rest => lastInstr rest

/-- Modelled from the spec: `llvm.verifyModule` is an external library
call.  Per the spec's structural verification pass, every block must hold
exactly one terminator, as its last instruction (the defined-before-use
check has no observable content in this embedding, where instructions do
not reference each other). -/
def blockWellFormed (b : BasicBlock) : Bool :=
  (b.instrs.filter isTerminator).length == 1 &&
    (match lastInstr b.instrs with
     | some i => isTerminator i
     | none => false)

/-- Modelled from the spec: see `blockWellFormed`. -/
def verifyModule (m : LLVMModule) : Bool :=
  m.functions.all (fun f => f.blocks.all blockWellFormed)

/-- Embeds `emitLLVM` (generator.ts lines 27-48): create the module and the
entry function, emit every source unit, append the single terminating
zero return, verify, and deliver the module; a verification failure aborts
the attempt instead. -/
def emitLLVM (program : List (List Node)) : Except String LLVMModule :=
  if verifyModule (emitFinalState program).module then
    Except.ok (emitFinalState program).module
  else Except.error "Module verification failed"

/-- Kinds of `ts.ClassElement`; `ts.isPropertyDeclaration` holds exactly
for `property`. -/
inductive MemberKind where
  | property
  | method
  | constructorMember
  | getAccessor
deriving DecidableEq

/-- A class member as `getMemberIndex` inspects it: its kind and the text of
its name. -/
structure ClassMember where
  kind : MemberKind
  name : String
deriving DecidableEq

/-- `ts.ClassDeclaration`: the class name and its members in declaration
order. -/
structure ClassDeclaration where
  name : String
  members : List ClassMember
deriving DecidableEq

/-- `ts.isPropertyDeclaration`. -/
def isPropertyDeclaration (m : ClassMember) : Bool :=
  match m.kind with
  | .property => true
  | _ => false

/-- `declaration.members.findIndex(member => ts.isPropertyDeclaration(member)
&& member.name.getText() === name)`, with a miss as `none` instead of -1. -/
def findMemberIdx (name : String) : List ClassMember → Option Nat
  | [] => none
  | m :: rest =>
    if isPropertyDeclaration m && m.name == name then some 0
    else Option.map (fun i => i + 1) (findMemberIdx name rest)

/-- Embeds `getMemberIndex` from the utility module: the index of the first
property-kind member with the given name within the full member list; a
miss is the fatal diagnostic naming the class and the field. -/
def getMemberIndex (name : String) (declaration : ClassDeclaration) : Except String Nat :=
  match findMemberIdx name declaration.members with
  | some index => Except.ok index
  | none =>
    Except.error ("Type \x27" ++ declaration.name ++ "\x27 has no field \x27" ++ name ++ "\x27")

/-- Position of a name in a list of names (first match). -/
def findNameIdx (name : String) : List String → Option Nat
  | [] => none
  | s :: rest =>
    if s == name then some 0
    else Option.map (fun i => i + 1) (findNameIdx name rest)

/-- Written from the spec's words for comparison with `getMemberIndex`: the
class layout is the ordered list of field names derived from the
property-kind members only, in declaration order. -/
def classFieldList (declaration : ClassDeclaration) : List String :=
  (declaration.members.filter isPropertyDeclaration).map (fun m => m.name)

/-- Written from the spec's words for comparison with `getMemberIndex`: the
field-to-index mapping positional over the property-kind members only. -/
def fieldIndexFromLayout (name : String) (declaration : ClassDeclaration) : Option Nat :=
  findNameIdx name (classFieldList declaration)

/-- A class whose first member is not a property: a constructor, then the
fields `x` and `y`. -/
def pointClass : ClassDeclaration :=
  ⟨"Point", [⟨MemberKind.constructorMember, "constructor"⟩,
             ⟨MemberKind.property, "x"⟩,
             ⟨MemberKind.property, "y"⟩]⟩

/-- The statement instructions contributed to the entry function by the
top-level statement-kind nodes of a node list, in source order. -/
def stmtsOf (ns : List Node) : List Instr :=
  (ns.filter (fun n => isStmtKind n.kind)).map (fun n => Instr.stmt n.text)

/-- The function artifact the modelled declaration emitter produces for a
function-declaration node. -/
def declFunc (n : Node) : LLVMFunction :=
  ⟨n.name, LType.double, [], [⟨"entry", [Instr.stmt n.text, Instr.ret 0]⟩]⟩

/-- The functions contributed to the module by the function-declaration
nodes of a node list, in source order. -/
def declsOf (ns : List Node) : List LLVMFunction :=
  (ns.filter (fun n => isFuncDeclKind n.kind)).map declFunc

/-- The entry function holding the given body instructions in its single
entry block. -/
def mainWith (is : List Instr) : LLVMFunction :=
  ⟨"main", LType.int32, [], [⟨"entry", is⟩]⟩

/-- Claim C6: the value-vs-reference classification holds that a resolved
type is value-typed exactly when it is the uniform floating-point numeric
representation (double); booleans, strings and aggregates all fall on the
reference-typed side of this predicate. -/
theorem c6_value_type_classification :
    ∀ t : LType, isValueType t = true ↔ t = LType.double := by
  intro t
  cases t <;> simp [isValueType, LType.isDoubleTy]

/-- Claim C2: the load-if-needed rule loads a produced value exactly when it
is an alloca or a pointer whose element type is value-typed, and returns it
unchanged otherwise; a non-alloca reference/aggregate-typed address is never
auto-loaded. -/
theorem c2_load_if_needed :
    ∀ v : LLVMValue,
      ((createLoadIfAllocaOrPointerToValueType v).2 ≠ [] ↔
        (v.isAlloca = true ∨
          (v.type.isPointerTy = true ∧ isValueType v.type.elementType = true))) ∧
      (v.isAlloca = false → v.type.isPointerTy = true →
        isValueType v.type.elementType = false →
        createLoadIfAllocaOrPointerToValueType v = (v, [])) := by
  intro v
  unfold createLoadIfAllocaOrPointerToValueType
  by_cases h : (v.isAlloca || (v.type.isPointerTy && isValueType v.type.elementType)) = true
  · rw [if_pos h]
    simp only [Bool.or_eq_true, Bool.and_eq_true] at h
    refine ⟨iff_of_true (by simp) h, ?_⟩
    intro h1 h2 h3
    rcases h with h | ⟨_, h⟩
    · rw [h1] at h; exact absurd h (by simp)
    · rw [h3] at h; exact absurd h (by simp)
  · rw [if_neg h]
    simp only [Bool.or_eq_true, Bool.and_eq_true] at h
    exact ⟨iff_of_false (by simp) h, fun _ _ _ => rfl⟩

/-- Witness for C2: a non-alloca pointer to an aggregate is returned
unchanged with no load emitted. -/
theorem c2_load_if_needed_witness :
    createLoadIfAllocaOrPointerToValueType ⟨LType.pointer (LType.structT "Point"), false⟩ =
      (⟨LType.pointer (LType.structT "Point"), false⟩, []) :=
  (c2_load_if_needed ⟨LType.pointer (LType.structT "Point"), false⟩).2 rfl rfl rfl

/-- Claim C9: nodes of kind `EndOfFileToken` or `InterfaceDeclaration` are
skipped silently by node dispatch: the state — module, cursor and warning
list alike — is returned untouched, so no code is emitted and no notice is
raised. -/
theorem c9_eof_interface_silent :
    ∀ (n : Node) (sc : Scope) (st : GenState),
      n.kind = SyntaxKind.EndOfFileToken ∨ n.kind = SyntaxKind.InterfaceDeclaration →
      emitNode n sc st = st := by
  intro n sc st h
  rcases h with h | h <;> simp [emitNode, h, isStmtKind]

/-- Witness for C9: an end-of-file token leaves the initial state
untouched. -/
theorem c9_eof_interface_silent_witness :
    emitNode ⟨SyntaxKind.EndOfFileToken, "", ""⟩ Scope.global initialState = initialState :=
  c9_eof_interface_silent ⟨SyntaxKind.EndOfFileToken, "", ""⟩ Scope.global initialState
    (Or.inl rfl)

/-- Counterexample to claim C4 as stated: the claim says an unsupported node
kind only ever produces a non-fatal notice and never aborts the compilation
attempt, but an expression of unhandled kind hits the `error` default of
`emitExpression` (generator.ts lines 142-144), which is the fatal
diagnostic channel — the attempt aborts instead of continuing. -/
theorem c4_counterexample :
    emitExpression ⟨SyntaxKind.Unknown "TaggedTemplateExpression", "tagged template", ""⟩ =
      Except.error "Unhandled ts.Expression \x27TaggedTemplateExpression\x27" := rfl

/-- Claim C4 as amended: an unhandled node kind at statement/declaration
dispatch (`emitNode`) raises only a non-fatal notice and is skipped, the
module and cursor untouched and compilation continuing; an unhandled
expression kind in `emitExpression`, however, is a fatal error that aborts
the compilation attempt. -/
theorem c4_unhandled_kind_amended :
    ∀ (n : Node) (sc : Scope) (st : GenState) (tag : String),
      n.kind = SyntaxKind.Unknown tag →
      emitNode n sc st =
        { st with warnings :=
            st.warnings ++ ["Unhandled ts.Node \x27" ++ tag ++ "\x27: " ++ n.text] } ∧
      emitExpression n = Except.error ("Unhandled ts.Expression \x27" ++ tag ++ "\x27") := by
  intro n sc st tag h
  constructor
  · simp [emitNode, h, isStmtKind, kindName]
  · simp [emitExpression, h, kindName]

/-- Witness for the amended C4: a `ForStatement` node (unsupported) warns
and is skipped by `emitNode` but is a fatal error for `emitExpression`. -/
theorem c4_unhandled_kind_amended_witness :
    emitNode ⟨SyntaxKind.Unknown "ForStatement", "for loop", ""⟩ Scope.global initialState =
      { initialState with warnings := ["Unhandled ts.Node \x27ForStatement\x27: for loop"] } ∧
    emitExpression ⟨SyntaxKind.Unknown "ForStatement", "for loop", ""⟩ =
      Except.error "Unhandled ts.Expression \x27ForStatement\x27" :=
  c4_unhandled_kind_amended ⟨SyntaxKind.Unknown "ForStatement", "for loop", ""⟩
    Scope.global initialState "ForStatement" rfl

lemma findMemberIdx_some_spec (nm : String) (l : List ClassMember) :
    ∀ i, findMemberIdx nm l = some i →
      (∃ m, l[i]? = some m ∧ isPropertyDeclaration m = true ∧ m.name = nm) ∧
      (∀ j m, j < i → l[j]? = some m →
        ¬(isPropertyDeclaration m = true ∧ m.name = nm)) := by
  induction l with
  | nil => intro i h; simp [findMemberIdx] at h
  | cons m rest ih =>
    intro i h
    by_cases hm : (isPropertyDeclaration m && m.name == nm) = true
    · rw [findMemberIdx, if_pos hm] at h
      injection h with h
      subst h
      simp only [Bool.and_eq_true, beq_iff_eq] at hm
      exact ⟨⟨m, by simp, hm.1, hm.2⟩, fun j mm hj _ => absurd hj (by omega)⟩
    · rw [findMemberIdx, if_neg hm] at h
      cases hr : findMemberIdx nm rest with
      | none => rw [hr] at h; simp at h
      | some i' =>
        rw [hr] at h
        simp only [Option.map_some'] at h
        injection h with h
        subst h
        obtain ⟨h1, h2⟩ := ih i' hr
        refine ⟨by simpa using h1, ?_⟩
        intro j mm hj hget
        cases j with
        | zero =>
          simp only [List.getElem?_cons_zero] at hget
          injection hget with hget
          subst hget
          intro hc
          exact hm (by simp [hc.1, hc.2])
        | succ j' =>
          exact h2 j' mm (by omega) (by simpa using hget)

lemma findMemberIdx_none_of (nm : String) (l : List ClassMember)
    (h : ∀ m ∈ l, ¬(isPropertyDeclaration m = true ∧ m.name = nm)) :
    findMemberIdx nm l = none := by
  induction l with
  | nil => rfl
  | cons m rest ih =>
    rw [findMemberIdx]
    have hm : ¬(isPropertyDeclaration m && m.name == nm) = true := by
      intro hc
      simp only [Bool.and_eq_true, beq_iff_eq] at hc
      exact h m (List.mem_cons_self m rest) hc
    rw [if_neg hm, ih (fun m' hm' => h m' (List.mem_cons_of_mem m hm'))]
    rfl

/-- Counterexample to claim C3 as stated: the claim says the field-to-index
mapping is positional over the class's property-kind members only, but
`getMemberIndex` takes the index within the full member list.  For a class
declaring a constructor and then the field `x`, the code yields index 1
while the property-only layout of the spec places `x` at index 0. -/
theorem c3_counterexample :
    getMemberIndex "x" pointClass = Except.ok 1 ∧
    fieldIndexFromLayout "x" pointClass = some 0 ∧ (1 : Nat) ≠ 0 :=
  ⟨rfl, rfl, by decide⟩

/-- Claim C3 as amended: the field-to-index mapping returns the position of
the first property-kind member with the looked-up name within the full
declared member list (which coincides with the property-only positional
index exactly when no non-property member precedes it); looking up a field
name with no property-kind member in the class is a hard error naming the
class and the field, and no index is guessed. -/
theorem c3_member_index_amended :
    ∀ (nm : String) (d : ClassDeclaration),
      (∀ i, getMemberIndex nm d = Except.ok i →
        (∃ m, d.members[i]? = some m ∧ isPropertyDeclaration m = true ∧ m.name = nm) ∧
        (∀ j m, j < i → d.members[j]? = some m →
          ¬(isPropertyDeclaration m = true ∧ m.name = nm))) ∧
      ((∀ m ∈ d.members, ¬(isPropertyDeclaration m = true ∧ m.name = nm)) →
        getMemberIndex nm d =
          Except.error ("Type \x27" ++ d.name ++ "\x27 has no field \x27" ++ nm ++ "\x27")) := by
  intro nm d
  constructor
  · intro i h
    unfold getMemberIndex at h
    cases hf : findMemberIdx nm d.members with
    | none => rw [hf] at h; exact absurd h (by simp)
    | some i' =>
      rw [hf] at h
      injection h with h
      subst h
      exact findMemberIdx_some_spec nm d.members i' hf
  · intro h
    unfold getMemberIndex
    rw [findMemberIdx_none_of nm d.members h]

/-- Witness for the amended C3: on the `Point` class the looked-up field `x`
resolves to index 1, which indeed holds the property member `x`. -/
theorem c3_member_index_amended_witness :
    ∃ m, pointClass.members[1]? = some m ∧ isPropertyDeclaration m = true ∧ m.name = "x" :=
  (((c3_member_index_amended "x" pointClass).1) 1 rfl).1

lemma stripExt_some (p b : List Char) (h : dropExtRev p.reverse = some b) :
    stripExt p = b.reverse := by
  unfold stripExt
  rw [h]

lemma stripExt_none (p : List Char) (h : dropExtRev p.reverse = none) :
    stripExt p = p := by
  unfold stripExt
  rw [h]

lemma beq_dot_false_of_extCharOk (c : Char) (h : extCharOk c = true) :
    (c == '.') = false := by
  revert h
  unfold extCharOk
  cases c == '.' <;> simp

lemma notSep_of_extCharOk (c : Char) (h : extCharOk c = true) :
    notSep c = true := by
  revert h
  unfold extCharOk notSep
  cases c == '/' <;> cases c == '\\' <;> simp

lemma consumeExt_append_dot (cs r : List Char)
    (h : ∀ c ∈ cs, extCharOk c = true) :
    consumeExt (cs ++ '.' :: r) = some r := by
  induction cs with
  | nil => simp [consumeExt]
  | cons c cs ih =>
    have hc := h c (List.mem_cons_self c cs)
    simp only [List.cons_append, consumeExt]
    rw [beq_dot_false_of_extCharOk c hc]
    simp only [Bool.false_eq_true, if_false, hc, if_true]
    exact ih (fun c' h' => h c' (List.mem_cons_of_mem c h'))

lemma consumeExt_some_decomp (l : List Char) :
    ∀ r, consumeExt l = some r →
      ∃ s, l = s ++ '.' :: r ∧ ∀ c ∈ s, extCharOk c = true := by
  induction l with
  | nil => intro r h; simp [consumeExt] at h
  | cons c t ih =>
    intro r h
    simp only [consumeExt] at h
    by_cases hc : (c == '.') = true
    · rw [if_pos hc] at h
      injection h with h
      subst h
      have hcd : c = '.' := eq_of_beq hc
      subst hcd
      exact ⟨[], rfl, by simp⟩
    · rw [if_neg hc] at h
      by_cases he : extCharOk c = true
      · rw [if_pos he] at h
        obtain ⟨s, hs1, hs2⟩ := ih r h
        refine ⟨c :: s, by rw [hs1]; rfl, ?_⟩
        intro c' hc'
        rcases List.mem_cons.mp hc' with rfl | h'
        · exact he
        · exact hs2 c' h'
      · rw [if_neg he] at h
        exact absurd h (by simp)

lemma dropExtRev_some_decomp (l r : List Char) (h : dropExtRev l = some r) :
    ∃ s, l = s ++ '.' :: r ∧ s ≠ [] ∧ ∀ c ∈ s, extCharOk c = true := by
  cases l with
  | nil => simp [dropExtRev] at h
  | cons c t =>
    simp only [dropExtRev] at h
    by_cases he : extCharOk c = true
    · rw [if_pos he] at h
      obtain ⟨s, hs1, hs2⟩ := consumeExt_some_decomp t r h
      refine ⟨c :: s, by rw [hs1]; rfl, by simp, ?_⟩
      intro c' hc'
      rcases List.mem_cons.mp hc' with rfl | h'
      · exact he
      · exact hs2 c' h'
    · rw [if_neg he] at h
      exact absurd h (by simp)

lemma consumeExt_none_of_no_dot (t : List Char) :
    '.' ∉ t.takeWhile notSep → consumeExt t = none := by
  induction t with
  | nil => intro _; rfl
  | cons c t' ih =>
    intro h
    simp only [consumeExt]
    by_cases hc : (c == '.') = true
    · exfalso
      have hcd : c = '.' := eq_of_beq hc
      subst hcd
      apply h
      rw [List.takeWhile_cons_of_pos (by decide : notSep '.' = true)]
      exact List.mem_cons_self '.' _
    · rw [if_neg hc]
      by_cases he : extCharOk c = true
      · rw [if_pos he]
        apply ih
        intro hdot
        apply h
        rw [List.takeWhile_cons_of_pos (notSep_of_extCharOk c he)]
        exact List.mem_cons_of_mem c hdot
      · rw [if_neg he]

lemma dropExtRev_none_of_no_dot (l : List Char) (h : '.' ∉ l.takeWhile notSep) :
    dropExtRev l = none := by
  cases l with
  | nil => rfl
  | cons c t =>
    simp only [dropExtRev]
    by_cases he : extCharOk c = true
    · rw [if_pos he]
      apply consumeExt_none_of_no_dot
      intro hdot
      apply h
      rw [List.takeWhile_cons_of_pos (notSep_of_extCharOk c he)]
      exact List.mem_cons_of_mem c hdot
    · rw [if_neg he]

/-- Claim C7: `replaceExtension` derives the output name by replacing the
path's extension: it removes the final dot-suffix (a dot followed by a
nonempty run of characters containing no dot or path separator) and appends
the supplied extension string. -/
theorem c7_replace_extension :
    ∀ (base suffix ext : List Char), suffix ≠ [] →
      (∀ c ∈ suffix, extCharOk c = true) →
      replaceExtension (base ++ '.' :: suffix) ext = base ++ ext := by
  intro base suffix ext hne hok
  have hrev : (base ++ '.' :: suffix).reverse = suffix.reverse ++ '.' :: base.reverse := by
    rw [List.reverse_append, List.reverse_cons, List.append_assoc]
    rfl
  obtain ⟨c, cs, hsc⟩ : ∃ c cs, suffix.reverse = c :: cs := by
    cases hs : suffix.reverse with
    | nil => exact absurd (by simpa using hs) hne
    | cons c cs => exact ⟨c, cs, rfl⟩
  have hok' : ∀ c' ∈ c :: cs, extCharOk c' = true := by
    rw [← hsc]
    intro c' hc'
    exact hok c' (List.mem_reverse.mp hc')
  have hd : dropExtRev (base ++ '.' :: suffix).reverse = some base.reverse := by
    rw [hrev, hsc]
    simp only [List.cons_append, dropExtRev]
    rw [if_pos (hok' c (List.mem_cons_self c cs))]
    exact consumeExt_append_dot cs base.reverse
      (fun c' h' => hok' c' (List.mem_cons_of_mem c h'))
  unfold replaceExtension
  rw [stripExt_some _ _ hd, List.reverse_reverse]

/-- Witness for C7: `file.ts` with extension `.ll` becomes `file.ll`. -/
theorem c7_replace_extension_witness :
    replaceExtension ['f', 'i', 'l', 'e', '.', 't', 's'] ['.', 'l', 'l'] =
      ['f', 'i', 'l', 'e', '.', 'l', 'l'] :=
  c7_replace_extension ['f', 'i', 'l', 'e'] ['t', 's'] ['.', 'l', 'l']
    (by decide) (by decide)

/-- Claim C10: `replaceExtension` never alters directory components — the
removed dot-suffix contains no path separator — and for a path whose final
segment contains no dot the result is the original path with the extension
appended and nothing removed. -/
theorem c10_replace_extension_dirs :
    ∀ (p ext : List Char),
      (replaceExtension p ext = p ++ ext ∨
        ∃ base suffix, p = base ++ '.' :: suffix ∧ suffix ≠ [] ∧
          (∀ c ∈ suffix, notSep c = true) ∧ replaceExtension p ext = base ++ ext) ∧
      ('.' ∉ finalSegment p → replaceExtension p ext = p ++ ext) := by
  intro p ext
  constructor
  · cases hd : dropExtRev p.reverse with
    | none =>
      left
      unfold replaceExtension
      rw [stripExt_none p hd]
    | some b =>
      obtain ⟨s, hs1, hsne, hs2⟩ := dropExtRev_some_decomp p.reverse b hd
      refine Or.inr ⟨b.reverse, s.reverse, ?_, by simpa using hsne, ?_, ?_⟩
      · have hp : p = (s ++ '.' :: b).reverse := by
          rw [← hs1, List.reverse_reverse]
        rw [hp, List.reverse_append, List.reverse_cons, List.append_assoc]
        rfl
      · intro c hc
        exact notSep_of_extCharOk c (hs2 c (List.mem_reverse.mp hc))
      · unfold replaceExtension
        rw [stripExt_some p b hd]
  · intro h
    have hnd : '.' ∉ p.reverse.takeWhile notSep := by
      intro hdot
      exact h (List.mem_reverse.mpr hdot)
    unfold replaceExtension
    rw [stripExt_none p (dropExtRev_none_of_no_dot p.reverse hnd)]

/-- Witness for C10: a path whose directory part contains a dot but whose
file name does not is passed through untouched, extension appended. -/
theorem c10_replace_extension_dirs_witness :
    replaceExtension ['d', 'i', 'r', '.', 'v', '2', '/', 'f', 'i', 'l', 'e'] ['.', 'o'] =
      ['d', 'i', 'r', '.', 'v', '2', '/', 'f', 'i', 'l', 'e'] ++ ['.', 'o'] :=
  (c10_replace_extension_dirs ['d', 'i', 'r', '.', 'v', '2', '/', 'f', 'i', 'l', 'e']
    ['.', 'o']).2 (by decide)

lemma findFuncIdx_some_lt (name : String) (l : List LLVMFunction) :
    ∀ i, findFuncIdx name l = some i → i < l.length := by
  induction l with
  | nil => intro i h; simp [findFuncIdx] at h
  | cons f rest ih =>
    intro i h
    rw [findFuncIdx] at h
    by_cases hf : (f.name == name) = true
    · rw [if_pos hf] at h
      injection h with h
      subst h
      simp
    · rw [if_neg hf] at h
      cases hr : findFuncIdx name rest with
      | none => rw [hr] at h; simp at h
      | some i' =>
        rw [hr] at h
        simp only [Option.map_some'] at h
        injection h with h
        subst h
        simpa using Nat.succ_lt_succ (ih i' hr)

lemma getD_set_self {α : Type} (l : List α) (i : Nat) (a d : α) (h : i < l.length) :
    (l.set i a).getD i d = a := by
  induction l generalizing i with
  | nil => simp at h
  | cons x t ih =>
    cases i with
    | zero => rfl
    | succ i' => exact ih i' (by simpa using h)

lemma emitNode_stmt_eq (n : Node) (st : GenState) (h : isStmtKind n.kind = true) :
    emitNode n Scope.global st =
      appendInstr (Instr.stmt n.text) (setInsertionPointLastBlock "main" st) := by
  obtain ⟨k, t, nm⟩ := n
  cases k <;>
    simp_all [emitNode, isStmtKind, Scope.isGlobal, emitBlock, emitExpressionStatement,
      emitIfStatement, emitReturnStatement, emitVariableStatement, emitStatementAbstract]

/-- Claim C8: before a statement-kind node whose parent scope is the global
scope is dispatched, the insertion cursor is repositioned to the last basic
block of the function named "main", so the emitted statement lands in
`main`'s last block and every other function of the module is left exactly
as it was. -/
theorem c8_toplevel_statement_targets_main :
    ∀ (st : GenState) (n : Node) (mi : Nat),
      isStmtKind n.kind = true →
      findFuncIdx "main" st.module.functions = some mi →
      (∀ j, j ≠ mi →
        (emitNode n Scope.global st).module.functions[j]? = st.module.functions[j]?) ∧
      ((emitNode n Scope.global st).module.functions.getD mi defaultFunc =
        (let f := st.module.functions.getD mi defaultFunc
         let bi := f.blocks.length - 1
         let b := f.blocks.getD bi defaultBlock
         { f with blocks := f.blocks.set bi { b with instrs := b.instrs ++ [Instr.stmt n.text] } })) := by
  intro st n mi h hf
  have hlt : mi < st.module.functions.length := findFuncIdx_some_lt "main" _ mi hf
  rw [emitNode_stmt_eq n st h]
  obtain ⟨⟨mname, funcs⟩, ip, w⟩ := st
  simp only [setInsertionPointLastBlock] at hf ⊢
  rw [hf]
  simp only [appendInstr]
  constructor
  · intro j hj
    exact List.getElem?_set_ne (Ne.symm hj)
  · exact getD_set_self funcs mi _ defaultFunc hlt

/-- Witness for C8: in a state holding a previously emitted function `f`
and the entry function `main`, a top-level expression statement leaves `f`
untouched and appends to `main`'s last block. -/
theorem c8_toplevel_statement_targets_main_witness :
    (emitNode ⟨SyntaxKind.ExpressionStatement, "g();", ""⟩ Scope.global
        ⟨⟨"main", [⟨"f", LType.double, [], [⟨"entry", [Instr.ret 0]⟩]⟩, mainWith []]⟩,
         none, []⟩).module.functions[0]? =
      some ⟨"f", LType.double, [], [⟨"entry", [Instr.ret 0]⟩]⟩ := by
  have h := c8_toplevel_statement_targets_main
    ⟨⟨"main", [⟨"f", LType.double, [], [⟨"entry", [Instr.ret 0]⟩]⟩, mainWith []]⟩, none, []⟩
    ⟨SyntaxKind.ExpressionStatement, "g();", ""⟩ 1 rfl rfl
  rw [h.1 0 (by decide)]
  rfl

lemma stmt_not_decl (k : SyntaxKind) (h : isStmtKind k = true) :
    isFuncDeclKind k = false := by
  cases k <;> simp_all [isStmtKind, isFuncDeclKind]

lemma emitNode_step (n : Node)
    (hn : isStmtKind n.kind = true ∨ isFuncDeclKind n.kind = true)
    (is : List Instr) (fs : List LLVMFunction) (ip : Option (Nat × Nat))
    (w : List String) :
    emitNode n Scope.global ⟨⟨"main", mainWith is :: fs⟩, ip, w⟩ =
      if isStmtKind n.kind then
        ⟨⟨"main", mainWith (is ++ [Instr.stmt n.text]) :: fs⟩, some (0, 0), w⟩
      else
        ⟨⟨"main", mainWith is :: (fs ++ [declFunc n])⟩, some (fs.length + 1, 0), w⟩ := by
  obtain ⟨k, t, nm⟩ := n
  cases k <;>
    simp_all [emitNode, isStmtKind, isFuncDeclKind, Scope.isGlobal, emitBlock,
      emitExpressionStatement, emitIfStatement, emitReturnStatement,
      emitVariableStatement, emitStatementAbstract, appendInstr,
      setInsertionPointLastBlock, findFuncIdx, mainWith, emitFunctionDeclaration,
      emitClassDeclaration, emitModuleDeclaration, declFunc]

lemma stmtsOf_cons_stmt (n : Node) (t : List Node) (h : isStmtKind n.kind = true) :
    stmtsOf (n :: t) = Instr.stmt n.text :: stmtsOf t := by
  simp [stmtsOf, List.filter_cons, h]

lemma stmtsOf_cons_decl (n : Node) (t : List Node) (h : isStmtKind n.kind = false) :
    stmtsOf (n :: t) = stmtsOf t := by
  simp [stmtsOf, List.filter_cons, h]

lemma declsOf_cons_stmt (n : Node) (t : List Node) (h : isFuncDeclKind n.kind = false) :
    declsOf (n :: t) = declsOf t := by
  simp [declsOf, List.filter_cons, h]

lemma declsOf_cons_decl (n : Node) (t : List Node) (h : isFuncDeclKind n.kind = true) :
    declsOf (n :: t) = declFunc n :: declsOf t := by
  simp [declsOf, List.filter_cons, h]

lemma emitSourceFile_inv (ns : List Node) :
    (∀ n ∈ ns, isStmtKind n.kind = true ∨ isFuncDeclKind n.kind = true) →
    ∀ (is : List Instr) (fs : List LLVMFunction) (ip : Option (Nat × Nat))
      (w : List String),
      ∃ ip2, emitSourceFile ns ⟨⟨"main", mainWith is :: fs⟩, ip, w⟩ =
        ⟨⟨"main", mainWith (is ++ stmtsOf ns) :: (fs ++ declsOf ns)⟩, ip2, w⟩ := by
  induction ns with
  | nil =>
    intro _ is fs ip w
    exact ⟨ip, by simp [emitSourceFile, stmtsOf, declsOf]⟩
  | cons n t ih =>
    intro h is fs ip w
    have hn := h n (List.mem_cons_self n t)
    have ht : ∀ n' ∈ t, isStmtKind n'.kind = true ∨ isFuncDeclKind n'.kind = true :=
      fun n' h' => h n' (List.mem_cons_of_mem n h')
    have hstep : emitSourceFile (n :: t) ⟨⟨"main", mainWith is :: fs⟩, ip, w⟩ =
        emitSourceFile t (emitNode n Scope.global ⟨⟨"main", mainWith is :: fs⟩, ip, w⟩) := rfl
    rw [hstep, emitNode_step n hn is fs ip w]
    by_cases hs : isStmtKind n.kind = true
    · rw [if_pos hs]
      obtain ⟨ip2, heq⟩ := ih ht (is ++ [Instr.stmt n.text]) fs (some (0, 0)) w
      refine ⟨ip2, ?_⟩
      rw [heq, stmtsOf_cons_stmt n t hs, declsOf_cons_stmt n t (stmt_not_decl n.kind hs)]
      simp [List.append_assoc]
    · rw [if_neg hs]
      have hs' : isStmtKind n.kind = false := by
        revert hs
        cases isStmtKind n.kind <;> simp
      have hd : isFuncDeclKind n.kind = true := hn.resolve_left hs
      obtain ⟨ip2, heq⟩ := ih ht is (fs ++ [declFunc n]) (some (fs.length + 1, 0)) w
      refine ⟨ip2, ?_⟩
      rw [heq, stmtsOf_cons_decl n t hs', declsOf_cons_decl n t hd]
      simp [List.append_assoc]

lemma emitProgram_inv (prog : List (List Node)) :
    (∀ u ∈ prog, ∀ n ∈ u, isStmtKind n.kind = true ∨ isFuncDeclKind n.kind = true) →
    ∀ (is : List Instr) (fs : List LLVMFunction) (ip : Option (Nat × Nat))
      (w : List String),
      ∃ ip2, prog.foldl (fun s u => emitSourceFile u s) ⟨⟨"main", mainWith is :: fs⟩, ip, w⟩ =
        ⟨⟨"main", mainWith (is ++ stmtsOf prog.flatten) :: (fs ++ declsOf prog.flatten)⟩, ip2, w⟩ := by
  induction prog with
  | nil =>
    intro _ is fs ip w
    exact ⟨ip, by simp [stmtsOf, declsOf]⟩
  | cons u rest ih =>
    intro h is fs ip w
    have hu := h u (List.mem_cons_self u rest)
    have hrest : ∀ u' ∈ rest, ∀ n ∈ u', isStmtKind n.kind = true ∨ isFuncDeclKind n.kind = true :=
      fun u' h' => h u' (List.mem_cons_of_mem u h')
    have hstep : (u :: rest).foldl (fun s v => emitSourceFile v s)
          ⟨⟨"main", mainWith is :: fs⟩, ip, w⟩ =
        rest.foldl (fun s v => emitSourceFile v s)
          (emitSourceFile u ⟨⟨"main", mainWith is :: fs⟩, ip, w⟩) := rfl
    rw [hstep]
    obtain ⟨ip1, heq1⟩ := emitSourceFile_inv u hu is fs ip w
    rw [heq1]
    obtain ⟨ip2, heq2⟩ := ih hrest (is ++ stmtsOf u) (fs ++ declsOf u) ip1 w
    refine ⟨ip2, ?_⟩
    rw [heq2]
    have hj : (u :: rest).flatten = u ++ rest.flatten := rfl
    have h1 : stmtsOf (u ++ rest.flatten) = stmtsOf u ++ stmtsOf rest.flatten := by
      simp [stmtsOf, List.filter_append]
    have h2 : declsOf (u ++ rest.flatten) = declsOf u ++ declsOf rest.flatten := by
      simp [declsOf, List.filter_append]
    rw [hj, h1, h2]
    simp [List.append_assoc]

lemma lastInstr_concat (l : List Instr) (a : Instr) : lastInstr (l ++ [a]) = some a := by
  induction l with
  | nil => rfl
  | cons x t ih =>
    cases t with
    | nil => rfl
    | cons y t' =>
      have h1 : (x :: y :: t') ++ [a] = x :: y :: (t' ++ [a]) := rfl
      have h2 : lastInstr (x :: y :: (t' ++ [a])) = lastInstr (y :: (t' ++ [a])) := rfl
      rw [h1, h2]
      exact ih

lemma filter_isTerminator_stmtsOf (l : List Node) :
    (stmtsOf l).filter isTerminator = [] := by
  induction l with
  | nil => rfl
  | cons n t ih =>
    by_cases h : isStmtKind n.kind = true
    · rw [stmtsOf_cons_stmt n t h]
      simp [List.filter_cons, isTerminator, ih]
    · rw [stmtsOf_cons_decl n t (by revert h; cases isStmtKind n.kind <;> simp)]
      exact ih

lemma blockWellFormed_stmts_ret (l : List Node) :
    blockWellFormed ⟨"entry", stmtsOf l ++ [Instr.ret 0]⟩ = true := by
  simp [blockWellFormed, List.filter_append, filter_isTerminator_stmtsOf,
    lastInstr_concat, isTerminator, List.filter_cons]

lemma declsOf_all_wellFormed (l : List Node) :
    (declsOf l).all (fun f => f.blocks.all blockWellFormed) = true := by
  rw [List.all_eq_true]
  intro f hf
  obtain ⟨n, _, rfl⟩ := List.mem_map.mp hf
  simp [declFunc, blockWellFormed, isTerminator, lastInstr, List.filter_cons]

lemma verify_final (l : List Node) :
    verifyModule ⟨"main", mainWith (stmtsOf l ++ [Instr.ret 0]) :: declsOf l⟩ = true := by
  simp only [verifyModule, List.all_cons]
  rw [declsOf_all_wellFormed l]
  simp [mainWith, blockWellFormed_stmts_ret l]

/-- Claim C1: for every compilation whose units consist of top-level
statements and function declarations, every top-level statement of every
source unit is emitted into the single synthesized, parameterless,
i32-returning entry function in source-unit order, and exactly one
terminating zero return instruction sits at the end of that function's
body, appended after all units have been processed and never interleaved
with unit emission (the declared functions land as separate artifacts, in
order, after the entry function). -/
theorem c1_entry_function_single_return :
    ∀ prog : List (List Node),
      (∀ u ∈ prog, ∀ n ∈ u, isStmtKind n.kind = true ∨ isFuncDeclKind n.kind = true) →
      emitLLVM prog =
        Except.ok ⟨"main",
          mainWith (stmtsOf prog.flatten ++ [Instr.ret 0]) :: declsOf prog.flatten⟩ := by
  intro prog h
  obtain ⟨ip2, heq⟩ := emitProgram_inv prog h [] [] none []
  have hfinal : emitFinalState prog =
      ⟨⟨"main", mainWith (stmtsOf prog.flatten ++ [Instr.ret 0]) :: declsOf prog.flatten⟩,
       some (0, 0), []⟩ := by
    unfold emitFinalState
    rw [show (initialState : GenState) = ⟨⟨"main", mainWith [] :: []⟩, none, []⟩ from rfl]
    rw [heq]
    simp only [List.nil_append]
    have hset : setInsertionPointLastBlock "main"
        ⟨⟨"main", mainWith (stmtsOf prog.flatten) :: declsOf prog.flatten⟩, ip2, []⟩ =
        ⟨⟨"main", mainWith (stmtsOf prog.flatten) :: declsOf prog.flatten⟩, some (0, 0), []⟩ := by
      simp [setInsertionPointLastBlock, findFuncIdx, mainWith]
    rw [hset]
    simp [appendInstr, mainWith]
  unfold emitLLVM
  rw [hfinal, if_pos (verify_final prog.flatten)]

/-- Witness for C1: the spec's example — unit A holding `let a = 1;` and
unit B holding `let b = 2;` — lands in one entry function in unit order
with exactly one trailing zero return. -/
theorem c1_entry_function_single_return_witness :
    emitLLVM [[⟨SyntaxKind.VariableStatement, "let a = 1;", ""⟩],
              [⟨SyntaxKind.VariableStatement, "let b = 2;", ""⟩]] =
      Except.ok ⟨"main",
        [mainWith [Instr.stmt "let a = 1;", Instr.stmt "let b = 2;", Instr.ret 0]]⟩ :=
  c1_entry_function_single_return
    [[⟨SyntaxKind.VariableStatement, "let a = 1;", ""⟩],
     [⟨SyntaxKind.VariableStatement, "let b = 2;", ""⟩]] (by decide)

/-- Claim C5: whenever a compilation attempt returns a module, the
structural verification pass has accepted the finished module first, and a
verification failure yields an abort instead of delivering the module. -/
theorem c5_verified_before_return :
    ∀ prog : List (List Node),
      (∀ m, emitLLVM prog = Except.ok m → verifyModule m = true) ∧
      (verifyModule (emitFinalState prog).module = false →
        emitLLVM prog = Except.error "Module verification failed") := by
  intro prog
  constructor
  · intro m h
    unfold emitLLVM at h
    by_cases hv : verifyModule (emitFinalState prog).module = true
    · rw [if_pos hv] at h
      injection h with h
      subst h
      exact hv
    · rw [if_neg hv] at h
      exact absurd h (by simp)
  · intro h
    unfold emitLLVM
    rw [if_neg (by simp [h])]

/-- Witness for C5: the empty compilation delivers its module, so the
verifier accepted that module. -/
theorem c5_verified_before_return_witness :
    verifyModule ⟨"main", [mainWith [Instr.ret 0]]⟩ = true :=
  (c5_verified_before_return []).1 ⟨"main", [mainWith [Instr.ret 0]]⟩ rfl
